import Mathlib

/-!
Shallow embedding of `src/documents/consumer.py` (the paperless consumption
pipeline) and proofs about the claims of the specification.

External collaborators (Django ORM, `hashlib.md5`, `GnuPG.encrypted`,
`FileInfo`, `Tag.match_all`, the `re` title pattern, signal observers) are
modelled as parameters of an `Env` record; the consumption directory is an
association list from path to file record; the database is a list of
`Document` rows.  Stateful code is explicit state passing: every operation
returns `Except Exc result × PState`, and the state component survives a
raised exception, exactly as in Python (an exception does not roll back
already performed writes).
-/

set_option autoImplicit false

namespace Paperless

/-- A file on disk: its bytes and its modification time (`st_mtime`). -/
structure FileRec where
  bytes : List Nat
  mtime : Int
  deriving DecidableEq, Repr

/-- The dict `{"parser": cls, "weight": w}` returned by a parser probe;
the parser class is identified by a numeric id. -/
structure ProbeResult where
  parser : Nat
  weight : Int
  deriving DecidableEq, Repr

/-- The `FileInfo` record derived from a filename by `FileInfo.from_path`
(external to `consumer.py`; its fields are the ones `_store` reads). -/
structure FileInfoT where
  correspondent : Option Nat
  title : String
  tags : List Nat
  extension : String
  created : Option Int
  deriving DecidableEq, Repr

/-- A persisted `Document` row, with the fields `_store` writes. -/
structure Document where
  id : Nat
  correspondent : Option Nat
  title : String
  content : String
  file_type : String
  checksum : Nat
  created : Int
  modified : Int
  tags : List Nat
  deriving DecidableEq, Repr

/-- The document table: rows plus the next autoincrement primary key. -/
structure DB where
  documents : List Document
  nextId : Nat
  deriving DecidableEq, Repr

/-- The two kinds of encrypted artifacts `_store` writes to `MEDIA_ROOT`. -/
inductive ArtifactKind where
  | content
  | thumbnail
  deriving DecidableEq, Repr

/-- An encrypted artifact written for a document. -/
structure Artifact where
  docId : Nat
  kind : ArtifactKind
  bytes : List Nat
  deriving DecidableEq, Repr

/-- Lifecycle signals sent by `try_consume_file`. -/
inductive Notif where
  | started (filename : String)
  | finished (documentId : Nat)
  deriving DecidableEq, Repr

/-- The log lines of `consumer.py` that the claims talk about. -/
inductive LogEntry where
  | duplicateSkip (doc : String)
  | noParserFound (doc : String)
  | consuming (doc : String)
  | parseFailure (doc : String) (cause : String)
  | finishedConsuming (documentId : Nat)
  deriving DecidableEq, Repr

/-- Python exceptions relevant to the pipeline: `ParseError` (caught by
`try_consume_file`) and everything else (IO, database, encryption errors). -/
inductive Exc where
  | parseError (msg : String)
  | ioError (msg : String)
  deriving DecidableEq, Repr

deriving instance DecidableEq for Except

/-- The behavior of an instantiated parser class on one file: the results of
`get_thumbnail`, `get_date` and `get_text` (each may raise). -/
structure ParserSem where
  get_thumbnail : Except Exc String
  get_date : Except Exc (Option Int)
  get_text : Except Exc String

/-- Fault injection for the store step: whether `Document.objects.create`,
the encrypted content write, or the encrypted thumbnail write raises. -/
structure StoreFaults where
  createFails : Bool
  contentWriteFails : Bool
  thumbWriteFails : Bool
  deriving DecidableEq, Repr

/-- External collaborators of `consumer.py`. -/
structure Env where
  /-- `hashlib.md5(bytes).hexdigest()`. -/
  hash : List Nat → Nat
  /-- `re.match(FileInfo.REGEXES["title"], file)` as a boolean. -/
  titleRegexMatch : String → Bool
  /-- `FileInfo.from_path`. -/
  fromPath : String → FileInfoT
  /-- `GnuPG.encrypted`. -/
  encrypt : List Nat → List Nat
  /-- `Tag.match_all(text)`, as tag ids. -/
  matchAllTags : String → List Nat
  /-- Bytes of a thumbnail file in the scratch directory, by path. -/
  thumbBytes : String → Option (List Nat)

/-- The mutable world of one consumer: the consumption directory, the
database, the encrypted artifacts, the emitted signals and logs, the
in-memory ignore list, and a counter of `parsed_document.cleanup()` calls. -/
structure PState where
  fs : List (String × FileRec)
  db : DB
  artifacts : List Artifact
  notifs : List Notif
  logs : List LogEntry
  ignore : List String
  cleanups : Nat
  deriving DecidableEq, Repr

/-- The fields of a successfully constructed `Consumer`. -/
structure ConsumerState where
  consume : String
  scratch : String
  parsers : List (String → Option ProbeResult)
  ignore : List String

/-! ### Small helpers over the state -/

/-- `open(p, "rb")` / `os.stat(p)` in the consumption directory:
the first entry with the given path, if any. -/
def lookupFile : List (String × FileRec) → String → Option FileRec
  | [], _ => none
  | e :: t, p => if e.1 = p then some e.2 else lookupFile t p

/-- `os.unlink(p)`: remove the entry with the given path. -/
def removeFile : List (String × FileRec) → String → List (String × FileRec)
  | [], _ => []
  | e :: t, p => if e.1 = p then removeFile t p else e :: removeFile t p

/-- `os.path.getmtime(p)`: `none` models the raised `OSError` when the file
is gone. -/
def getmtime (fs : List (String × FileRec)) (p : String) : Option Int :=
  (lookupFile fs p).map (fun fr => fr.mtime)

/-- `Document.objects.filter(checksum=c).exists()`. -/
def hasChecksum (db : DB) (c : Nat) : Bool :=
  db.documents.any (fun d => d.checksum = c)

def pushLog (e : LogEntry) (st : PState) : PState :=
  { st with logs := st.logs ++ [e] }

def pushNotif (n : Notif) (st : PState) : PState :=
  { st with notifs := st.notifs ++ [n] }

/-- One `parsed_document.cleanup()` call. -/
def cleanupBump (st : PState) : PState :=
  { st with cleanups := st.cleanups + 1 }

def isErr {ε α : Type} : Except ε α → Bool
  | Except.error _ => true
  | Except.ok _ => false

/-! ### The consumer operations, translated from `consumer.py` -/

/-- `Consumer._is_duplicate`: hash the file bytes and query the document
table for that checksum.  A missing file models the raised `IOError`. -/
def _is_duplicate (env : Env) (db : DB) (fs : List (String × FileRec))
    (doc : String) : Except Exc Bool :=
  match lookupFile fs doc with
  | none => Except.error (Exc.ioError "open for checksum")
  | some fr => Except.ok (hasChecksum db (env.hash fr.bytes))

/-- One insertion step of Python's stable `sorted(..., reverse=True)` on the
`"weight"` key: an element goes in front of the first element whose weight is
not larger, so earlier elements stay in front of equal-weight later ones. -/
def insertWeightDesc (a : ProbeResult) : List ProbeResult → List ProbeResult
  | [] => [a]
  | b :: t => if b.weight ≤ a.weight then a :: b :: t else b :: insertWeightDesc a t

/-- Python's builtin `sorted(options, key=weight, reverse=True)`: a stable
descending sort, realized as stable insertion sort. -/
def sortWeightDesc (l : List ProbeResult) : List ProbeResult :=
  l.foldr insertWeightDesc []

/-- `Consumer._get_parser_class`: probe every registered parser, collect the
acceptances, and return the `"parser"` field of the head of the stable
descending sort by `"weight"` (the purely informational "Parsers available"
log line is not modelled). -/
def _get_parser_class (parsers : List (String → Option ProbeResult))
    (doc : String) : Option Nat :=
  let options := parsers.filterMap (fun parser => parser doc)
  if options.isEmpty then none
  else (sortWeightDesc options).head?.map (fun o => o.parser)

/-- The three extraction calls of the `try` block, in source order:
`get_thumbnail()`, then `get_date()`, then `get_text()` (the latter is
evaluated as the first argument of `self._store`, hence before `_store`
runs); the first raised exception propagates. -/
def extractionResult (sem : ParserSem) : Except Exc (String × Option Int × String) :=
  match sem.get_thumbnail with
  | Except.error e => Except.error e
  | Except.ok thumbnail =>
    match sem.get_date with
    | Except.error e => Except.error e
    | Except.ok date =>
      match sem.get_text with
      | Except.error e => Except.error e
      | Except.ok text => Except.ok (thumbnail, date, text)

/-- `Consumer._store`: resolve `FileInfo`, resolve the created timestamp with
the priority `file_info.created or date or mtime`, create the `Document` row
(checksum of the source bytes), associate the union of matched and filename tags,
then write the two encrypted artifacts.  Each write may fail; the state
component records everything already written when an exception is raised. -/
def _store (env : Env) (faults : StoreFaults) (text doc thumbnail : String)
    (date : Option Int) (st : PState) : Except Exc Document × PState :=
  let file_info := env.fromPath doc
  match lookupFile st.fs doc with
  | none => (Except.error (Exc.ioError "stat"), st)
  | some fr =>
    let created := file_info.created.getD (date.getD fr.mtime)
    if faults.createFails then
      (Except.error (Exc.ioError "document create"), st)
    else
      let document : Document :=
        { id := st.db.nextId
          correspondent := file_info.correspondent
          title := file_info.title
          content := text
          file_type := file_info.extension
          checksum := env.hash fr.bytes
          created := created
          modified := created
          tags := (env.matchAllTags text ++ file_info.tags).eraseDups }
      let st₁ : PState :=
        { st with db := { documents := st.db.documents ++ [document],
                          nextId := st.db.nextId + 1 } }
      if faults.contentWriteFails then
        (Except.error (Exc.ioError "content write"), st₁)
      else
        let st₂ : PState :=
          { st₁ with artifacts :=
              st₁.artifacts ++ [⟨document.id, ArtifactKind.content, env.encrypt fr.bytes⟩] }
        match env.thumbBytes thumbnail with
        | none => (Except.error (Exc.ioError "thumbnail read"), st₂)
        | some tb =>
          if faults.thumbWriteFails then
            (Except.error (Exc.ioError "thumbnail write"), st₂)
          else
            (Except.ok document,
             { st₂ with artifacts :=
                 st₂.artifacts ++ [⟨document.id, ArtifactKind.thumbnail, env.encrypt tb⟩] })

/-- `Consumer._cleanup_doc`: delete the source file. -/
def _cleanup_doc (doc : String) (st : PState) : PState :=
  { st with fs := removeFile st.fs doc }

/-- `Consumer.try_consume_file`.  Returns the boolean "was consumed" (or the
propagated exception) together with the resulting state.  Only `ParseError`
is caught by the `try` block; any other exception propagates, and on that
path `parsed_document.cleanup()` is not called (neither the `except` nor the
`else` clause runs). -/
def try_consume_file (env : Env) (parsers : List (String → Option ProbeResult))
    (sems : Nat → String → ParserSem) (faults : StoreFaults)
    (file : String) (st : PState) : Except Exc Bool × PState :=
  if env.titleRegexMatch file = false then
    (Except.ok false, st)
  else
    match _is_duplicate env st.db st.fs file with
    | Except.error e => (Except.error e, st)
    | Except.ok true => (Except.ok false, pushLog (LogEntry.duplicateSkip file) st)
    | Except.ok false =>
      match _get_parser_class parsers file with
      | none => (Except.ok false, pushLog (LogEntry.noParserFound file) st)
      | some cls =>
        let st₁ := pushNotif (Notif.started file) (pushLog (LogEntry.consuming file) st)
        match extractionResult (sems cls file) with
        | Except.error (Exc.parseError m) =>
          (Except.ok false, cleanupBump (pushLog (LogEntry.parseFailure file m) st₁))
        | Except.error (Exc.ioError m) => (Except.error (Exc.ioError m), st₁)
        | Except.ok (thumbnail, date, text) =>
          match _store env faults text file thumbnail date st₁ with
          | (Except.error (Exc.parseError m), st₂) =>
            (Except.ok false, cleanupBump (pushLog (LogEntry.parseFailure file m) st₂))
          | (Except.error (Exc.ioError m), st₂) => (Except.error (Exc.ioError m), st₂)
          | (Except.ok document, st₂) =>
            let st₃ := _cleanup_doc file (cleanupBump st₂)
            (Except.ok true,
             pushNotif (Notif.finished document.id)
               (pushLog (LogEntry.finishedConsuming document.id) st₃))

/-- One insertion step of Python's stable ascending `sorted` on the mtime
key (`itemgetter(1)`). -/
def insertMtimeAsc (a : String × Int) : List (String × Int) → List (String × Int)
  | [] => [a]
  | b :: t => if a.2 ≤ b.2 then a :: b :: t else b :: insertMtimeAsc a t

/-- `sorted(files, key=itemgetter(1))`: stable ascending sort by mtime. -/
def sortByMtime (l : List (String × Int)) : List (String × Int) :=
  l.foldr insertMtimeAsc []

/-- The `for file, mtime in files_old_to_new` loop of `consume_new_files`:
re-read each candidate's mtime, consume it when unchanged, and append it to
the ignore list when `try_consume_file` returns `False`.  A file deleted in
the meantime makes `os.path.getmtime` raise, which propagates. -/
def consumeLoop (env : Env) (parsers : List (String → Option ProbeResult))
    (sems : Nat → String → ParserSem) (faults : StoreFaults) :
    List (String × Int) → PState → Except Exc Unit × PState
  | [], st => (Except.ok (), st)
  | (file, mtime) :: rest, st =>
    match getmtime st.fs file with
    | none => (Except.error (Exc.ioError "getmtime"), st)
    | some m =>
      if mtime = m then
        match try_consume_file env parsers sems faults file st with
        | (Except.ok consumed, st') =>
          consumeLoop env parsers sems faults rest
            (if consumed then st' else { st' with ignore := st'.ignore ++ [file] })
        | (Except.error e, st') => (Except.error e, st')
      else
        consumeLoop env parsers sems faults rest st

/-- `Consumer.consume_new_files`: scan the consumption directory for files
not on the ignore list paired with their mtime, return early when there are
none, sort oldest first, sleep the settle delay (during which the outside
world may rewrite the directory: the state's `fs` is replaced by
`fsAfterSleep`), then run the per-file loop. -/
def consume_new_files (env : Env) (parsers : List (String → Option ProbeResult))
    (sems : Nat → String → ParserSem) (faults : StoreFaults)
    (st : PState) (fsAfterSleep : List (String × FileRec)) :
    Except Exc Unit × PState :=
  let files := st.fs.filterMap
    (fun e => if e.1 ∈ st.ignore then none else some (e.1, e.2.mtime))
  if files.isEmpty then (Except.ok (), st)
  else
    consumeLoop env parsers sems faults (sortByMtime files)
      { st with fs := fsAfterSleep }

/-- Python truthiness of the `CONSUMPTION_DIR` setting: `None` and the empty
string are falsy. -/
def pyFalsyStr : Option String → Bool
  | none => true
  | some s => s.isEmpty

/-- `make_dirs`: create each directory, pre-existing not an error. -/
def make_dirs (dirs : List String) (existing : List String) : List String :=
  dirs.foldl (fun acc d => if d ∈ acc then acc else acc ++ [d]) existing

/-- The ignore list of a constructed consumer, `none` on a raised
`ConsumerError`. -/
def ignoreOf : Except String ConsumerState → Option (List String)
  | Except.ok c => some c.ignore
  | Except.error _ => none

/-- `Consumer.__init__`: create the scratch directory, then raise
`ConsumerError` when `CONSUMPTION_DIR` is unset, when it does not exist, or
when the parser declarations collected from the signal are empty; otherwise
the consumer starts with an empty ignore list.  The consumption directory
contents `fs` are threaded through untouched: `__init__` performs no
operation on them. -/
def consumer_init (consume : Option String) (scratch : String)
    (pathExists : String → Bool)
    (parserDecls : List (String → Option ProbeResult))
    (fs : List (String × FileRec)) (dirs : List String) :
    Except String ConsumerState × (List (String × FileRec) × List String) :=
  let dirs₁ := make_dirs [scratch] dirs
  if pyFalsyStr consume then
    (Except.error "The CONSUMPTION_DIR settings variable does not appear to be set.",
     (fs, dirs₁))
  else if pathExists (consume.getD "") = false then
    (Except.error "Consumption directory does not exist", (fs, dirs₁))
  else if parserDecls.isEmpty then
    (Except.error "No parsers could be found, not even the default.", (fs, dirs₁))
  else
    (Except.ok { consume := consume.getD "", scratch := scratch,
                 parsers := parserDecls, ignore := [] },
     (fs, dirs₁))

/-! ### Concrete fixtures used by witnesses and counterexamples -/

/-- A concrete environment: an injective-enough hash, a title pattern that
matches everything, a fixed `FileInfo`, and a prefixing encryption. -/
def tEnv : Env :=
  { hash := fun bs => bs.foldl (fun a b => a * 257 + b) 0
    titleRegexMatch := fun _ => true
    fromPath := fun _ => ⟨none, "t", [3], "pdf", none⟩
    encrypt := fun bs => 1 :: bs
    matchAllTags := fun _ => [7]
    thumbBytes := fun _ => some [9] }

/-- A parser instance whose three extraction calls succeed. -/
def tSem : ParserSem :=
  { get_thumbnail := Except.ok "thumb.png"
    get_date := Except.ok none
    get_text := Except.ok "text" }

def tSems : Nat → String → ParserSem := fun _ _ => tSem

/-- A parser instance whose `get_text` raises `ParseError`. -/
def tSemsParseFail : Nat → String → ParserSem := fun _ _ =>
  { get_thumbnail := Except.ok "thumb.png"
    get_date := Except.ok none
    get_text := Except.error (Exc.parseError "boom") }

/-- Two registered parsers accepting everything, with weights 5 and 10;
the weight 5 one is enumerated first. -/
def tParsers : List (String → Option ProbeResult) :=
  [fun _ => some ⟨1, 5⟩, fun _ => some ⟨2, 10⟩]

def noFaults : StoreFaults := ⟨false, false, false⟩

/-- The encrypted content write raises. -/
def faultsContent : StoreFaults := ⟨false, true, false⟩

/-- `Document.objects.create` raises. -/
def faultsCreate : StoreFaults := ⟨true, false, false⟩

/-- A consumption directory holding one file. -/
def tFs : List (String × FileRec) := [("a.pdf", ⟨[1, 2], 100⟩)]

/-- A fresh state: one file, empty database. -/
def tSt : PState :=
  { fs := tFs, db := ⟨[], 0⟩, artifacts := [], notifs := [], logs := [],
    ignore := [], cleanups := 0 }

/-- An already persisted document whose checksum is the hash of the bytes of
`a.pdf`. -/
def tDoc : Document :=
  { id := 0, correspondent := none, title := "old", content := "old",
    file_type := "pdf", checksum := tEnv.hash [1, 2], created := 0,
    modified := 0, tags := [] }

/-- A state in which `a.pdf` is a duplicate of the persisted `tDoc`. -/
def stDup : PState := { tSt with db := ⟨[tDoc], 1⟩ }

/-! ### Frame lemmas -/

/-- `_store` never touches the consumption directory, the ignore list, the
cleanup counter, the signals or the modelled logs. -/
theorem store_frame (env : Env) (faults : StoreFaults) (text doc thumbnail : String)
    (date : Option Int) (st : PState) :
    ((_store env faults text doc thumbnail date st).2.fs = st.fs) ∧
    ((_store env faults text doc thumbnail date st).2.ignore = st.ignore) ∧
    ((_store env faults text doc thumbnail date st).2.cleanups = st.cleanups) ∧
    ((_store env faults text doc thumbnail date st).2.notifs = st.notifs) := by
  unfold _store
  repeat' split <;> first | simp_all | rfl | constructor

/-- Shape of a successful `_store`: exactly one row is appended, its checksum
is the hash of the source bytes, its created and modified timestamps follow
the `file_info.created or date or mtime` priority, and the encrypted content
artifact is written. -/
theorem store_ok (env : Env) (faults : StoreFaults) (text doc thumbnail : String)
    (date : Option Int) (st : PState) (d : Document) (st' : PState) (fr : FileRec)
    (hfile : lookupFile st.fs doc = some fr)
    (h : _store env faults text doc thumbnail date st = (Except.ok d, st')) :
    st'.db.documents = st.db.documents ++ [d] ∧
    d.checksum = env.hash fr.bytes ∧
    Artifact.mk d.id ArtifactKind.content (env.encrypt fr.bytes) ∈ st'.artifacts ∧
    st'.fs = st.fs ∧
    d.created = (env.fromPath doc).created.getD (date.getD fr.mtime) ∧
    d.modified = d.created := by
  unfold _store at h
  simp only [hfile] at h
  split at h
  · simp at h
  · split at h
    · simp at h
    · split at h
      · simp at h
      · split at h
        · simp at h
        · rw [Prod.mk.injEq, Except.ok.injEq] at h
          obtain ⟨hd, hst⟩ := h
          subst hd
          subst hst
          refine ⟨rfl, rfl, ?_, rfl, rfl, rfl⟩
          simp

/-- `try_consume_file` never touches the ignore list, and it deletes the
source file exactly when it returns `ok true`; on every other outcome the
consumption directory is unchanged. -/
theorem try_shape (env : Env) (parsers : List (String → Option ProbeResult))
    (sems : Nat → String → ParserSem) (faults : StoreFaults)
    (file : String) (st : PState) :
    ((try_consume_file env parsers sems faults file st).2.ignore = st.ignore) ∧
    (((try_consume_file env parsers sems faults file st).1 = Except.ok true ∧
        (try_consume_file env parsers sems faults file st).2.fs = removeFile st.fs file) ∨
      (¬ (try_consume_file env parsers sems faults file st).1 = Except.ok true ∧
        (try_consume_file env parsers sems faults file st).2.fs = st.fs)) := by
  unfold try_consume_file
  split
  · simp
  · split
    · simp
    · simp [pushLog]
    · split
      · simp [pushLog]
      · split
        · simp [pushLog, pushNotif, cleanupBump]
        · simp [pushLog, pushNotif]
        · dsimp only
          split
          · rename_i thumbnail date text hext xr m st₂ heq
            have hf := store_frame env faults text file thumbnail date
              (pushNotif (Notif.started file) (pushLog (LogEntry.consuming file) st))
            rw [heq] at hf
            obtain ⟨h1, h2, h3, h4⟩ := hf
            simp_all [pushLog, pushNotif, cleanupBump]
          · rename_i thumbnail date text hext xr m st₂ heq
            have hf := store_frame env faults text file thumbnail date
              (pushNotif (Notif.started file) (pushLog (LogEntry.consuming file) st))
            rw [heq] at hf
            obtain ⟨h1, h2, h3, h4⟩ := hf
            simp_all [pushLog, pushNotif]
          · rename_i thumbnail date text hext xr document st₂ heq
            have hf := store_frame env faults text file thumbnail date
              (pushNotif (Notif.started file) (pushLog (LogEntry.consuming file) st))
            rw [heq] at hf
            obtain ⟨h1, h2, h3, h4⟩ := hf
            simp_all [pushLog, pushNotif, cleanupBump, _cleanup_doc]

/-! ### Lemmas about the directory and sorting helpers -/

theorem lookup_remove_self (fs : List (String × FileRec)) (p : String) :
    lookupFile (removeFile fs p) p = none := by
  induction fs with
  | nil => rfl
  | cons e t ih =>
    unfold removeFile
    by_cases h : e.1 = p
    · simp [h, ih]
    · simp [lookupFile, h, ih]

theorem lookup_remove_ne (fs : List (String × FileRec)) (p q : String) (h : q ≠ p) :
    lookupFile (removeFile fs p) q = lookupFile fs q := by
  induction fs with
  | nil => rfl
  | cons e t ih =>
    unfold removeFile
    by_cases h1 : e.1 = p
    · have h2 : ¬ e.1 = q := fun he => h (he ▸ h1)
      simp [lookupFile, h1, h2, ih, Ne.symm h]
    · simp [lookupFile, h1, ih]

theorem lookup_mem (fs : List (String × FileRec)) (p : String) (fr : FileRec)
    (h : lookupFile fs p = some fr) : (p, fr) ∈ fs := by
  induction fs with
  | nil => simp [lookupFile] at h
  | cons e t ih =>
    unfold lookupFile at h
    by_cases h1 : e.1 = p
    · rw [if_pos h1, Option.some.injEq] at h
      have he : e = (p, fr) := by
        calc e = (e.1, e.2) := rfl
          _ = (p, fr) := by rw [h1, h]
      rw [← he]
      exact List.mem_cons_self _ _
    · rw [if_neg h1] at h
      exact List.mem_cons_of_mem _ (ih h)

theorem insertMtimeAsc_perm (a : String × Int) (l : List (String × Int)) :
    List.Perm (insertMtimeAsc a l) (a :: l) := by
  induction l with
  | nil => exact List.Perm.refl _
  | cons b t ih =>
    unfold insertMtimeAsc
    by_cases h : a.2 ≤ b.2
    · rw [if_pos h]
    · rw [if_neg h]
      exact (List.Perm.cons b ih).trans (List.Perm.swap a b t)

theorem sortByMtime_perm (l : List (String × Int)) :
    List.Perm (sortByMtime l) l := by
  induction l with
  | nil => exact List.Perm.refl _
  | cons x xs ih =>
    exact (insertMtimeAsc_perm x (sortByMtime xs)).trans (List.Perm.cons x ih)

/-- The paths of the scanned candidate list are a sublist of the paths of
the directory, hence distinct when the directory's paths are. -/
theorem scan_fst_sublist (fs : List (String × FileRec)) (ign : List String) :
    ((fs.filterMap fun e =>
        if e.1 ∈ ign then none else some (e.1, e.2.mtime)).map Prod.fst).Sublist
      (fs.map Prod.fst) := by
  induction fs with
  | nil => simp
  | cons e t ih =>
    rw [List.filterMap_cons]
    by_cases h : e.1 ∈ ign
    · rw [if_pos h, List.map_cons]
      exact ih.cons _
    · rw [if_neg h, List.map_cons, List.map_cons]
      exact ih.cons₂ _

theorem scan_mem (fs : List (String × FileRec)) (ign : List String)
    (f : String) (fr : FileRec) (hmem : (f, fr) ∈ fs) (hnig : f ∉ ign) :
    (f, fr.mtime) ∈ fs.filterMap
      (fun e => if e.1 ∈ ign then none else some (e.1, e.2.mtime)) := by
  refine List.mem_filterMap.mpr ⟨(f, fr), hmem, ?_⟩
  simp [hnig]

/-- In a candidate list with distinct paths, everything before and after the
occurrence of `(f, m)` has a path different from `f`. -/
theorem nodup_fst_split (pre post : List (String × Int)) (f : String) (m : Int)
    (h : ((pre ++ (f, m) :: post).map Prod.fst).Nodup) :
    (∀ p ∈ pre, p.1 ≠ f) ∧ (∀ p ∈ post, p.1 ≠ f) := by
  rw [List.map_append, List.map_cons, List.nodup_append] at h
  obtain ⟨h1, h2, hdisj⟩ := h
  constructor
  · intro p hp hpf
    have hmem1 : p.1 ∈ List.map Prod.fst pre := List.mem_map_of_mem Prod.fst hp
    have hmem2 : p.1 ∈ f :: List.map Prod.fst post := by
      rw [hpf]
      exact List.mem_cons_self _ _
    exact hdisj hmem1 hmem2
  · intro p hp hpf
    have hmem : p.1 ∈ List.map Prod.fst post := List.mem_map_of_mem Prod.fst hp
    rw [hpf] at hmem
    exact (List.nodup_cons.mp h2).1 hmem

/-! ### Unfolding equations for the per-file loop -/

theorem consumeLoop_cons_gone (env : Env) (parsers : List (String → Option ProbeResult))
    (sems : Nat → String → ParserSem) (faults : StoreFaults)
    (g : String) (m : Int) (rest : List (String × Int)) (st : PState)
    (hmt : getmtime st.fs g = none) :
    consumeLoop env parsers sems faults ((g, m) :: rest) st =
      (Except.error (Exc.ioError "getmtime"), st) := by
  simp only [consumeLoop, hmt]

theorem consumeLoop_cons_skipped (env : Env) (parsers : List (String → Option ProbeResult))
    (sems : Nat → String → ParserSem) (faults : StoreFaults)
    (g : String) (m m' : Int) (rest : List (String × Int)) (st : PState)
    (hmt : getmtime st.fs g = some m') (hne : ¬ m = m') :
    consumeLoop env parsers sems faults ((g, m) :: rest) st =
      consumeLoop env parsers sems faults rest st := by
  simp only [consumeLoop, hmt, if_neg hne]

theorem consumeLoop_cons_ok (env : Env) (parsers : List (String → Option ProbeResult))
    (sems : Nat → String → ParserSem) (faults : StoreFaults)
    (g : String) (m : Int) (rest : List (String × Int)) (st : PState)
    (b : Bool) (st' : PState)
    (hmt : getmtime st.fs g = some m)
    (htry : try_consume_file env parsers sems faults g st = (Except.ok b, st')) :
    consumeLoop env parsers sems faults ((g, m) :: rest) st =
      consumeLoop env parsers sems faults rest
        (if b then st' else { st' with ignore := st'.ignore ++ [g] }) := by
  simp only [consumeLoop, hmt, htry, eq_self_iff_true, if_true]

theorem consumeLoop_cons_error (env : Env) (parsers : List (String → Option ProbeResult))
    (sems : Nat → String → ParserSem) (faults : StoreFaults)
    (g : String) (m : Int) (rest : List (String × Int)) (st : PState)
    (e : Exc) (st' : PState)
    (hmt : getmtime st.fs g = some m)
    (htry : try_consume_file env parsers sems faults g st = (Except.error e, st')) :
    consumeLoop env parsers sems faults ((g, m) :: rest) st =
      (Except.error e, st') := by
  simp only [consumeLoop, hmt, htry, eq_self_iff_true, if_true]

/-- A pass loop whose candidates all have a path different from `f` leaves
the directory entry of `f` and the ignore-membership of `f` unchanged,
whether it completes or aborts on a propagated exception. -/
theorem loop_untouched (env : Env) (parsers : List (String → Option ProbeResult))
    (sems : Nat → String → ParserSem) (faults : StoreFaults) (f : String)
    (l : List (String × Int)) :
    ∀ st : PState, (∀ p ∈ l, p.1 ≠ f) →
      lookupFile (consumeLoop env parsers sems faults l st).2.fs f =
        lookupFile st.fs f ∧
      ((f ∈ (consumeLoop env parsers sems faults l st).2.ignore) ↔
        f ∈ st.ignore) := by
  induction l with
  | nil =>
    intro st _
    simp [consumeLoop]
  | cons gm rest ih =>
    intro st havoid
    obtain ⟨g, m⟩ := gm
    have hg : g ≠ f := havoid (g, m) (List.mem_cons_self _ _)
    have hrest : ∀ p ∈ rest, p.1 ≠ f := fun p hp =>
      havoid p (List.mem_cons_of_mem _ hp)
    cases hmt : getmtime st.fs g with
    | none =>
      rw [consumeLoop_cons_gone env parsers sems faults g m rest st hmt]
      exact ⟨rfl, Iff.rfl⟩
    | some m' =>
      by_cases hm : m = m'
      · subst hm
        rcases htry : try_consume_file env parsers sems faults g st with ⟨r, st'⟩
        have hsh := try_shape env parsers sems faults g st
        rw [htry] at hsh
        dsimp only at hsh
        obtain ⟨hig, hfs⟩ := hsh
        cases r with
        | error e =>
          rw [consumeLoop_cons_error env parsers sems faults g m rest st e st' hmt htry]
          dsimp only
          constructor
          · rcases hfs with ⟨hok, _⟩ | ⟨_, hsame⟩
            · exact absurd hok (by simp)
            · rw [hsame]
          · rw [hig]
        | ok b =>
          rw [consumeLoop_cons_ok env parsers sems faults g m rest st b st' hmt htry]
          cases b with
          | true =>
            rw [if_pos rfl]
            have hr := ih st' hrest
            rcases hfs with ⟨_, hrm⟩ | ⟨hok, _⟩
            · refine ⟨?_, ?_⟩
              · rw [hr.1, hrm, lookup_remove_ne st.fs g f (Ne.symm hg)]
              · rw [hr.2, hig]
            · exact absurd rfl hok
          | false =>
            rw [if_neg (by simp)]
            have hr := ih { st' with ignore := st'.ignore ++ [g] } hrest
            have hfs' : st'.fs = st.fs := by
              rcases hfs with ⟨hok, _⟩ | ⟨_, hsame⟩
              · exact absurd hok (by simp)
              · exact hsame
            refine ⟨?_, ?_⟩
            · rw [hr.1]
              exact congrArg (fun fs => lookupFile fs f) hfs'
            · rw [hr.2]
              simp only [List.mem_append, List.mem_singleton]
              rw [hig]
              constructor
              · rintro (hmem | hcontra)
                · exact hmem
                · exact absurd hcontra (Ne.symm hg)
              · intro hmem
                exact Or.inl hmem
      · rw [consumeLoop_cons_skipped env parsers sems faults g m m' rest st hmt hm]
        exact ih st hrest

/-- If the re-read mtime of `f` at its own iteration differs from the mtime
recorded at scan time (or the file is gone by then), `f` is never attempted:
its directory entry and its ignore-membership are unchanged by the loop. -/
theorem loop_reach (env : Env) (parsers : List (String → Option ProbeResult))
    (sems : Nat → String → ParserSem) (faults : StoreFaults)
    (f : String) (m₀ : Int) (pre : List (String × Int)) :
    ∀ (post : List (String × Int)) (st : PState),
      (∀ p ∈ pre, p.1 ≠ f) → (∀ p ∈ post, p.1 ≠ f) →
      ¬ getmtime st.fs f = some m₀ →
      lookupFile
          (consumeLoop env parsers sems faults (pre ++ (f, m₀) :: post) st).2.fs f =
        lookupFile st.fs f ∧
      ((f ∈ (consumeLoop env parsers sems faults (pre ++ (f, m₀) :: post) st).2.ignore) ↔
        f ∈ st.ignore) := by
  induction pre with
  | nil =>
    intro post st _ hpost hch
    rw [List.nil_append]
    cases hmt : getmtime st.fs f with
    | none =>
      rw [consumeLoop_cons_gone env parsers sems faults f m₀ post st hmt]
      exact ⟨rfl, Iff.rfl⟩
    | some m' =>
      have hne : ¬ m₀ = m' := fun he => hch (he ▸ hmt)
      rw [consumeLoop_cons_skipped env parsers sems faults f m₀ m' post st hmt hne]
      exact loop_untouched env parsers sems faults f post st hpost
  | cons gm pre' ih =>
    intro post st hpre hpost hch
    obtain ⟨g, mg⟩ := gm
    have hg : g ≠ f := hpre (g, mg) (List.mem_cons_self _ _)
    have hpre' : ∀ p ∈ pre', p.1 ≠ f := fun p hp => hpre p (List.mem_cons_of_mem _ hp)
    rw [List.cons_append]
    cases hmt : getmtime st.fs g with
    | none =>
      rw [consumeLoop_cons_gone env parsers sems faults g mg _ st hmt]
      exact ⟨rfl, Iff.rfl⟩
    | some m' =>
      by_cases hm : mg = m'
      · subst hm
        rcases htry : try_consume_file env parsers sems faults g st with ⟨r, st'⟩
        have hsh := try_shape env parsers sems faults g st
        rw [htry] at hsh
        dsimp only at hsh
        obtain ⟨hig, hfs⟩ := hsh
        have hfs_f : lookupFile st'.fs f = lookupFile st.fs f := by
          rcases hfs with ⟨_, hrm⟩ | ⟨_, hsame⟩
          · rw [hrm, lookup_remove_ne st.fs g f (Ne.symm hg)]
          · rw [hsame]
        have hgm' : getmtime st'.fs f = getmtime st.fs f := by
          unfold getmtime
          rw [hfs_f]
        cases r with
        | error e =>
          rw [consumeLoop_cons_error env parsers sems faults g mg _ st e st' hmt htry]
          dsimp only
          exact ⟨hfs_f, by rw [hig]⟩
        | ok b =>
          rw [consumeLoop_cons_ok env parsers sems faults g mg _ st b st' hmt htry]
          cases b with
          | true =>
            rw [if_pos rfl]
            have hr := ih post st' hpre' hpost (by rw [hgm']; exact hch)
            refine ⟨hr.1.trans hfs_f, hr.2.trans ?_⟩
            rw [hig]
          | false =>
            rw [if_neg (by simp)]
            have hr := ih post { st' with ignore := st'.ignore ++ [g] } hpre' hpost
              (by dsimp only; rw [hgm']; exact hch)
            refine ⟨hr.1.trans hfs_f, ?_⟩
            rw [hr.2]
            dsimp only
            simp only [List.mem_append, List.mem_singleton]
            rw [hig]
            constructor
            · rintro (hmem | hco)
              · exact hmem
              · exact absurd hco (Ne.symm hg)
            · exact Or.inl
      · rw [consumeLoop_cons_skipped env parsers sems faults g mg m' _ st hmt hm]
        exact ih post st hpre' hpost hch

/-- When the loop completes without a propagated exception and the re-read
mtime of `f` at its own iteration equals the scanned one, `f` ends up on the
ignore list exactly when its source file survived the pass, i.e. exactly when
its consumption attempt returned `False` — for any reason, a duplicate skip
included. -/
theorem loop_ok_ignored (env : Env) (parsers : List (String → Option ProbeResult))
    (sems : Nat → String → ParserSem) (faults : StoreFaults)
    (f : String) (m₀ : Int) (pre : List (String × Int)) :
    ∀ (post : List (String × Int)) (st : PState),
      (∀ p ∈ pre, p.1 ≠ f) → (∀ p ∈ post, p.1 ≠ f) →
      f ∉ st.ignore →
      getmtime st.fs f = some m₀ →
      (consumeLoop env parsers sems faults (pre ++ (f, m₀) :: post) st).1 =
        Except.ok () →
      ((f ∈ (consumeLoop env parsers sems faults (pre ++ (f, m₀) :: post) st).2.ignore) ↔
        ¬ lookupFile
            (consumeLoop env parsers sems faults (pre ++ (f, m₀) :: post) st).2.fs f =
          none) := by
  induction pre with
  | nil =>
    intro post st _ hpost hnig hmt hok
    rw [List.nil_append] at hok ⊢
    rcases htry : try_consume_file env parsers sems faults f st with ⟨r, st'⟩
    have hsh := try_shape env parsers sems faults f st
    rw [htry] at hsh
    dsimp only at hsh
    obtain ⟨hig, hfs⟩ := hsh
    cases r with
    | error e =>
      rw [consumeLoop_cons_error env parsers sems faults f m₀ post st e st' hmt htry] at hok
      exact absurd hok (by simp)
    | ok b =>
      rw [consumeLoop_cons_ok env parsers sems faults f m₀ post st b st' hmt htry]
      cases b with
      | true =>
        rw [if_pos rfl]
        have hu := loop_untouched env parsers sems faults f post st' hpost
        have hrm : st'.fs = removeFile st.fs f := by
          rcases hfs with ⟨_, hrm⟩ | ⟨hok', _⟩
          · exact hrm
          · exact absurd rfl hok'
        rw [hu.1, hu.2, hig, hrm, lookup_remove_self]
        simp [hnig]
      | false =>
        rw [if_neg (by simp)]
        have hu := loop_untouched env parsers sems faults f post
          { st' with ignore := st'.ignore ++ [f] } hpost
        have hsame : st'.fs = st.fs := by
          rcases hfs with ⟨hok', _⟩ | ⟨_, hsame⟩
          · exact absurd hok' (by simp)
          · exact hsame
        rw [hu.1, hu.2]
        dsimp only
        rw [hsame]
        have hlk : ¬ lookupFile st.fs f = none := by
          intro hn
          rw [getmtime, hn] at hmt
          simp at hmt
        simp [hlk]
  | cons gm pre' ih =>
    intro post st hpre hpost hnig hmt hok
    obtain ⟨g, mg⟩ := gm
    have hg : g ≠ f := hpre (g, mg) (List.mem_cons_self _ _)
    have hpre' : ∀ p ∈ pre', p.1 ≠ f := fun p hp => hpre p (List.mem_cons_of_mem _ hp)
    rw [List.cons_append] at hok ⊢
    cases hmtg : getmtime st.fs g with
    | none =>
      rw [consumeLoop_cons_gone env parsers sems faults g mg _ st hmtg] at hok
      exact absurd hok (by simp)
    | some m' =>
      by_cases hm : mg = m'
      · subst hm
        rcases htry : try_consume_file env parsers sems faults g st with ⟨r, st'⟩
        have hsh := try_shape env parsers sems faults g st
        rw [htry] at hsh
        dsimp only at hsh
        obtain ⟨hig, hfs⟩ := hsh
        have hfs_f : lookupFile st'.fs f = lookupFile st.fs f := by
          rcases hfs with ⟨_, hrm⟩ | ⟨_, hsame⟩
          · rw [hrm, lookup_remove_ne st.fs g f (Ne.symm hg)]
          · rw [hsame]
        have hgm' : getmtime st'.fs f = some m₀ := by
          rw [getmtime, hfs_f, ← getmtime, hmt]
        cases r with
        | error e =>
          rw [consumeLoop_cons_error env parsers sems faults g mg _ st e st' hmtg htry] at hok
          exact absurd hok (by simp)
        | ok b =>
          rw [consumeLoop_cons_ok env parsers sems faults g mg _ st b st' hmtg htry] at hok ⊢
          cases b with
          | true =>
            rw [if_pos rfl] at hok ⊢
            exact ih post st' hpre' hpost (fun hmem => hnig (hig ▸ hmem)) hgm' hok
          | false =>
            rw [if_neg (by simp)] at hok ⊢
            refine ih post { st' with ignore := st'.ignore ++ [g] } hpre' hpost ?_ hgm' hok
            intro hmem
            dsimp only at hmem
            rcases List.mem_append.mp hmem with hmem' | hco
            · exact hnig (hig ▸ hmem')
            · exact (Ne.symm hg) (List.mem_singleton.mp hco)
      · rw [consumeLoop_cons_skipped env parsers sems faults g mg m' _ st hmtg hm] at hok ⊢
        exact ih post st hpre' hpost hnig hmt hok

/-- The head of the stable descending sort is the first maximum of the
original list: everything before its original occurrence is strictly
lighter, everything after it is no heavier. -/
theorem sortWeightDesc_head (l : List ProbeResult) (hne : l ≠ []) :
    ∃ h l₁ l₂, (sortWeightDesc l).head? = some h ∧ l = l₁ ++ h :: l₂ ∧
      (∀ x ∈ l₁, x.weight < h.weight) ∧ (∀ x ∈ l₂, x.weight ≤ h.weight) := by
  induction l with
  | nil => exact absurd rfl hne
  | cons x xs ih =>
    cases xs with
    | nil => exact ⟨x, [], [], rfl, rfl, by simp, by simp⟩
    | cons y ys =>
      obtain ⟨h, l₁, l₂, hhead, hsplit, hlt, hle⟩ := ih (by simp)
      cases hs : sortWeightDesc (y :: ys) with
      | nil =>
        rw [hs] at hhead
        simp at hhead
      | cons h' t =>
        rw [hs, List.head?_cons, Option.some.injEq] at hhead
        subst hhead
        by_cases hw : h'.weight ≤ x.weight
        · refine ⟨x, [], y :: ys, ?_, rfl, by simp, ?_⟩
          · show (insertWeightDesc x (sortWeightDesc (y :: ys))).head? = some x
            rw [hs]
            unfold insertWeightDesc
            rw [if_pos hw]
            rfl
          · intro z hz
            rw [hsplit] at hz
            rcases List.mem_append.mp hz with hz1 | hz2
            · exact le_of_lt (lt_of_lt_of_le (hlt z hz1) hw)
            · rcases List.mem_cons.mp hz2 with hz2 | hz3
              · rw [hz2]
                exact hw
              · exact le_trans (hle z hz3) hw
        · refine ⟨h', x :: l₁, l₂, ?_, ?_, ?_, hle⟩
          · show (insertWeightDesc x (sortWeightDesc (y :: ys))).head? = some h'
            rw [hs]
            unfold insertWeightDesc
            rw [if_neg hw]
            rfl
          · rw [List.cons_append, hsplit]
          · intro z hz
            rcases List.mem_cons.mp hz with hz1 | hz2
            · rw [hz1]
              exact not_le.mp hw
            · exact hlt z hz2

/-- Everything a successful `try_consume_file` did: exactly one document was
appended, its checksum is the hash of the original bytes, the encrypted
content artifact was written, the source file was removed, and the parser
was cleaned up once. -/
theorem try_success_shape (env : Env) (parsers : List (String → Option ProbeResult))
    (sems : Nat → String → ParserSem) (faults : StoreFaults)
    (file : String) (st st' : PState) (fr : FileRec)
    (hfile : lookupFile st.fs file = some fr)
    (htry : try_consume_file env parsers sems faults file st = (Except.ok true, st')) :
    ∃ d, st'.db.documents = st.db.documents ++ [d] ∧
      d.checksum = env.hash fr.bytes ∧
      st'.fs = removeFile st.fs file ∧
      Artifact.mk d.id ArtifactKind.content (env.encrypt fr.bytes) ∈ st'.artifacts ∧
      st'.cleanups = st.cleanups + 1 := by
  unfold try_consume_file at htry
  split at htry
  · simp at htry
  · split at htry
    · simp at htry
    · simp at htry
    · split at htry
      · simp at htry
      · split at htry
        · simp at htry
        · simp at htry
        · dsimp only at htry
          split at htry
          · simp at htry
          · simp at htry
          · rename_i thumbnail date text hext xr document st₂ heq
            rw [Prod.mk.injEq] at htry
            obtain ⟨-, hst'⟩ := htry
            have hso := store_ok env faults text file thumbnail date
              (pushNotif (Notif.started file) (pushLog (LogEntry.consuming file) st))
              document st₂ fr (by dsimp only [pushNotif, pushLog]; exact hfile) heq
            obtain ⟨hdb, hck, hart, hfs, -, -⟩ := hso
            refine ⟨document, ?_, hck, ?_, ?_, ?_⟩
            · rw [← hst']
              dsimp only [pushNotif, pushLog, _cleanup_doc, cleanupBump]
              rw [hdb]
              dsimp only [pushNotif, pushLog]
            · rw [← hst']
              dsimp only [pushNotif, pushLog, _cleanup_doc, cleanupBump]
              rw [hfs]
              dsimp only [pushNotif, pushLog]
            · rw [← hst']
              dsimp only [pushNotif, pushLog, _cleanup_doc, cleanupBump]
              exact hart
            · rw [← hst']
              dsimp only [pushNotif, pushLog, _cleanup_doc, cleanupBump]
              have := store_frame env faults text file thumbnail date
                (pushNotif (Notif.started file) (pushLog (LogEntry.consuming file) st))
              rw [heq] at this
              dsimp only at this
              rw [this.2.2.1]
              dsimp only [pushNotif, pushLog]

/-! ### Claim theorems -/

/-- Claim C1: for every file whose bytes hash to a checksum already present
on a persisted Document, the per-file attempt returns False and has no side
effects: no new Document row, no artifacts, no started or finished signal,
no cleanup call, and the source file is untouched. -/
theorem duplicate_skip_no_side_effects (env : Env)
    (parsers : List (String → Option ProbeResult)) (sems : Nat → String → ParserSem)
    (faults : StoreFaults) (file : String) (st : PState) (fr : FileRec)
    (hfile : lookupFile st.fs file = some fr)
    (hdup : hasChecksum st.db (env.hash fr.bytes) = true) :
    (try_consume_file env parsers sems faults file st).1 = Except.ok false ∧
    (try_consume_file env parsers sems faults file st).2.db = st.db ∧
    (try_consume_file env parsers sems faults file st).2.fs = st.fs ∧
    (try_consume_file env parsers sems faults file st).2.artifacts = st.artifacts ∧
    (try_consume_file env parsers sems faults file st).2.notifs = st.notifs ∧
    (try_consume_file env parsers sems faults file st).2.cleanups = st.cleanups := by
  unfold try_consume_file
  split
  · exact ⟨rfl, rfl, rfl, rfl, rfl, rfl⟩
  · simp only [_is_duplicate, hfile, hdup]
    exact ⟨trivial, rfl, rfl, rfl, rfl, rfl⟩

theorem duplicate_skip_no_side_effects_witness :
    (try_consume_file tEnv tParsers tSems noFaults "a.pdf" stDup).1 =
      Except.ok false ∧
    (try_consume_file tEnv tParsers tSems noFaults "a.pdf" stDup).2.db = stDup.db := by
  have h := duplicate_skip_no_side_effects tEnv tParsers tSems noFaults "a.pdf" stDup
    ⟨[1, 2], 100⟩ (by rfl) (by rfl)
  exact ⟨h.1, h.2.1⟩

/-- Claim C5: when extraction (thumbnail, date or text) raises `ParseError`,
the attempt returns False, no Document is created, no artifact is written,
the source file is untouched, the failure is logged with its cause, and
`cleanup()` runs exactly once. -/
theorem parse_error_recovery (env : Env)
    (parsers : List (String → Option ProbeResult)) (sems : Nat → String → ParserSem)
    (faults : StoreFaults) (file : String) (st : PState) (fr : FileRec)
    (cls : Nat) (m : String)
    (hre : env.titleRegexMatch file = true)
    (hfile : lookupFile st.fs file = some fr)
    (hdup : hasChecksum st.db (env.hash fr.bytes) = false)
    (hcls : _get_parser_class parsers file = some cls)
    (hext : extractionResult (sems cls file) = Except.error (Exc.parseError m)) :
    (try_consume_file env parsers sems faults file st).1 = Except.ok false ∧
    (try_consume_file env parsers sems faults file st).2.db = st.db ∧
    (try_consume_file env parsers sems faults file st).2.fs = st.fs ∧
    (try_consume_file env parsers sems faults file st).2.artifacts = st.artifacts ∧
    (try_consume_file env parsers sems faults file st).2.cleanups = st.cleanups + 1 ∧
    LogEntry.parseFailure file m ∈ (try_consume_file env parsers sems faults file st).2.logs := by
  unfold try_consume_file
  rw [if_neg (by rw [hre]; simp)]
  simp only [_is_duplicate, hfile, hdup, hcls, hext]
  refine ⟨trivial, rfl, rfl, rfl, rfl, ?_⟩
  dsimp only [cleanupBump, pushLog, pushNotif]
  simp

theorem parse_error_recovery_witness :
    (try_consume_file tEnv tParsers tSemsParseFail noFaults "a.pdf" tSt).1 =
      Except.ok false ∧
    (try_consume_file tEnv tParsers tSemsParseFail noFaults "a.pdf" tSt).2.db = tSt.db ∧
    (try_consume_file tEnv tParsers tSemsParseFail noFaults "a.pdf" tSt).2.fs = tSt.fs ∧
    (try_consume_file tEnv tParsers tSemsParseFail noFaults "a.pdf" tSt).2.cleanups =
      tSt.cleanups + 1 := by
  have h := parse_error_recovery tEnv tParsers tSemsParseFail noFaults "a.pdf" tSt
    ⟨[1, 2], 100⟩ 2 "boom" (by rfl) (by rfl) (by rfl) (by rfl) (by rfl)
  exact ⟨h.1, h.2.1, h.2.2.1, h.2.2.2.2.1⟩

/-- Claim C8: the created timestamp of a stored Document follows the
priority: date embedded in the filename, else extraction-provided date, else
the source file's modification time; and created equals modified. -/
theorem created_timestamp_priority (env : Env) (faults : StoreFaults)
    (text doc thumbnail : String) (date : Option Int) (st : PState)
    (fr : FileRec) (d : Document) (st' : PState)
    (hfile : lookupFile st.fs doc = some fr)
    (hst : _store env faults text doc thumbnail date st = (Except.ok d, st')) :
    ((env.fromPath doc).created = none → date = none → d.created = fr.mtime) ∧
    (∀ c, (env.fromPath doc).created = some c → d.created = c) ∧
    (∀ c, (env.fromPath doc).created = none → date = some c → d.created = c) ∧
    d.modified = d.created := by
  obtain ⟨-, -, -, -, hcr, hmod⟩ :=
    store_ok env faults text doc thumbnail date st d st' fr hfile hst
  refine ⟨?_, ?_, ?_, hmod⟩
  · intro h1 h2
    rw [hcr, h1, h2]
    rfl
  · intro c h1
    rw [hcr, h1]
    rfl
  · intro c h1 h2
    rw [hcr, h1, h2]
    rfl

/-- The Document produced by `_store` on the `tSt` fixture. -/
def tDocStored : Document :=
  { id := 0, correspondent := none, title := "t", content := "text",
    file_type := "pdf", checksum := 259, created := 100, modified := 100,
    tags := [7, 3] }

theorem created_timestamp_priority_witness :
    tDocStored.created = (100 : Int) ∧ tDocStored.modified = tDocStored.created := by
  have h := created_timestamp_priority tEnv noFaults "text" "a.pdf" "thumb.png" none tSt
    ⟨[1, 2], 100⟩ tDocStored
    (_store tEnv noFaults "text" "a.pdf" "thumb.png" none tSt).2 (by rfl) (by rfl)
  exact ⟨h.1 rfl rfl, h.2.2.2⟩

/-- Claim C9: constructing the consumer raises `ConsumerError` exactly when
the consumption directory setting is unset, the directory does not exist, or
zero parser declarations were collected; the construction touches no file of
the consumption directory and a successful construction starts with an empty
ignore list. -/
theorem init_fatal_configuration (consume : Option String) (scratch : String)
    (pathExists : String → Bool) (parserDecls : List (String → Option ProbeResult))
    (fs : List (String × FileRec)) (dirs : List String) :
    (isErr (consumer_init consume scratch pathExists parserDecls fs dirs).1 = true ↔
      (pyFalsyStr consume = true ∨ pathExists (consume.getD "") = false ∨
        parserDecls.isEmpty = true)) ∧
    (consumer_init consume scratch pathExists parserDecls fs dirs).2.1 = fs ∧
    (isErr (consumer_init consume scratch pathExists parserDecls fs dirs).1 = true ∨
      ignoreOf (consumer_init consume scratch pathExists parserDecls fs dirs).1 =
        some []) := by
  unfold consumer_init
  by_cases h1 : pyFalsyStr consume = true
  · rw [if_pos h1]
    exact ⟨by simp [isErr, h1], rfl, Or.inl rfl⟩
  · rw [if_neg h1]
    by_cases h2 : pathExists (consume.getD "") = false
    · rw [if_pos h2]
      exact ⟨by simp [isErr, h2], rfl, Or.inl rfl⟩
    · rw [if_neg h2]
      by_cases h3 : parserDecls.isEmpty = true
      · rw [if_pos h3]
        exact ⟨by simp [isErr, h3], rfl, Or.inl rfl⟩
      · rw [if_neg h3]
        exact ⟨by simp [isErr, h1, h2, h3], rfl, Or.inr rfl⟩

/-- Claim C2 as stated is false on the code: with the encrypted content
write failing, `_store` surfaces the error, yet the Document row created
before that write remains queryable — a subsequent duplicate check on the
file's checksum now answers `true`, although it answered `false` before. -/
theorem store_not_atomic_counterexample :
    isErr (_store tEnv faultsContent "text" "a.pdf" "thumb.png" none tSt).1 = true ∧
    hasChecksum (_store tEnv faultsContent "text" "a.pdf" "thumb.png" none tSt).2.db
      (tEnv.hash [1, 2]) = true ∧
    hasChecksum tSt.db (tEnv.hash [1, 2]) = false := by decide

/-- Claim C2 amended: every store-step failure is surfaced to the caller as
a raised error, never swallowed, and a failure of the Document row creation
itself leaves the database unchanged; a failure of a later artifact write,
however, leaves the already-created row visible to subsequent duplicate
checks (the step is not atomic as a whole — see the counterexample). -/
theorem store_failures_surfaced (env : Env) (faults : StoreFaults)
    (text doc thumbnail : String) (date : Option Int) (st : PState) (fr : FileRec)
    (hfile : lookupFile st.fs doc = some fr)
    (hfault : faults.createFails = true ∨ faults.contentWriteFails = true ∨
      faults.thumbWriteFails = true) :
    isErr (_store env faults text doc thumbnail date st).1 = true ∧
    (faults.createFails = true →
      (_store env faults text doc thumbnail date st).2.db = st.db) := by
  unfold _store
  simp only [hfile]
  by_cases h1 : faults.createFails = true
  · rw [if_pos h1]
    exact ⟨rfl, fun _ => rfl⟩
  · rw [if_neg h1]
    refine ⟨?_, fun hc => absurd hc h1⟩
    by_cases h2 : faults.contentWriteFails = true
    · rw [if_pos h2]
      rfl
    · rw [if_neg h2]
      cases htb : env.thumbBytes thumbnail with
      | none => rfl
      | some tb =>
        dsimp only
        rcases hfault with hf | hf | hf
        · exact absurd hf h1
        · exact absurd hf h2
        · rw [if_pos hf]
          rfl

theorem store_failures_surfaced_witness :
    isErr (_store tEnv faultsContent "text" "a.pdf" "thumb.png" none tSt).1 = true :=
  (store_failures_surfaced tEnv faultsContent "text" "a.pdf" "thumb.png" none tSt
    ⟨[1, 2], 100⟩ (by rfl) (Or.inr (Or.inl rfl))).1

/-- Claim C3: a successfully consumed file yields exactly one new Document
whose checksum hashes the original bytes, the source file no longer exists
afterwards, and the source is only ever deleted on the success outcome, in
which the row and the encrypted content artifact have already been written
(on every other outcome the directory entry survives). -/
theorem success_stores_then_deletes (env : Env)
    (parsers : List (String → Option ProbeResult)) (sems : Nat → String → ParserSem)
    (faults : StoreFaults) (file : String) (st : PState) (fr : FileRec)
    (hfile : lookupFile st.fs file = some fr) :
    ((try_consume_file env parsers sems faults file st).1 = Except.ok true →
      ∃ d, (try_consume_file env parsers sems faults file st).2.db.documents =
          st.db.documents ++ [d] ∧
        d.checksum = env.hash fr.bytes ∧
        lookupFile (try_consume_file env parsers sems faults file st).2.fs file = none ∧
        Artifact.mk d.id ArtifactKind.content (env.encrypt fr.bytes) ∈
          (try_consume_file env parsers sems faults file st).2.artifacts) ∧
    (lookupFile (try_consume_file env parsers sems faults file st).2.fs file = none →
      (try_consume_file env parsers sems faults file st).1 = Except.ok true) := by
  rcases htry : try_consume_file env parsers sems faults file st with ⟨r, st'⟩
  constructor
  · intro hok
    dsimp only at hok ⊢
    subst hok
    obtain ⟨d, hdb, hck, hfs, hart, -⟩ :=
      try_success_shape env parsers sems faults file st st' fr hfile htry
    exact ⟨d, hdb, hck, by rw [hfs, lookup_remove_self], hart⟩
  · intro hnone
    dsimp only at hnone ⊢
    have hsh := try_shape env parsers sems faults file st
    rw [htry] at hsh
    dsimp only at hsh
    rcases hsh.2 with ⟨hok, _⟩ | ⟨_, hsame⟩
    · exact hok
    · rw [hsame, hfile] at hnone
      exact absurd hnone (by simp)

theorem success_stores_then_deletes_witness :
    lookupFile (try_consume_file tEnv tParsers tSems noFaults "a.pdf" tSt).2.fs
      "a.pdf" = none ∧
    (try_consume_file tEnv tParsers tSems noFaults "a.pdf" tSt).1 = Except.ok true := by
  have h := success_stores_then_deletes tEnv tParsers tSems noFaults "a.pdf" tSt
    ⟨[1, 2], 100⟩ (by rfl)
  obtain ⟨d, -, -, hfs, -⟩ := h.1 (by rfl)
  exact ⟨hfs, h.2 hfs⟩

/-- Claim C4: parser selection probes every registered capability (the
selection is `none` exactly when no probe accepts), and otherwise returns
the acceptance with the strictly highest weight, ties resolving to the
acceptance enumerated first; being a pure function of the probe results, the
choice is deterministic. -/
theorem parser_selection_first_highest_weight
    (parsers : List (String → Option ProbeResult)) (doc : String) :
    (_get_parser_class parsers doc = none ↔
      parsers.filterMap (fun parser => parser doc) = []) ∧
    (parsers.filterMap (fun parser => parser doc) ≠ [] →
      ∃ best l₁ l₂, _get_parser_class parsers doc = some best.parser ∧
        parsers.filterMap (fun parser => parser doc) = l₁ ++ best :: l₂ ∧
        (∀ o ∈ l₁, o.weight < best.weight) ∧
        (∀ o ∈ l₂, o.weight ≤ best.weight)) := by
  constructor
  · constructor
    · intro hnone
      by_contra hne
      obtain ⟨h, l₁, l₂, hhead, -, -, -⟩ := sortWeightDesc_head _ hne
      unfold _get_parser_class at hnone
      rw [if_neg (by simpa using hne), hhead] at hnone
      simp at hnone
    · intro hnil
      unfold _get_parser_class
      rw [if_pos (by simpa using hnil)]
  · intro hne
    obtain ⟨best, l₁, l₂, hhead, hsplit, hlt, hle⟩ := sortWeightDesc_head _ hne
    refine ⟨best, l₁, l₂, ?_, hsplit, hlt, hle⟩
    unfold _get_parser_class
    rw [if_neg (by simpa using hne), hhead]
    rfl

/-- The weight 10 parser is selected although the weight 5 one is
registered first. -/
theorem parser_selection_witness : _get_parser_class tParsers "a.pdf" = some 2 := by
  obtain ⟨best, l₁, l₂, hbest, hsplit, hlt, hle⟩ :=
    (parser_selection_first_highest_weight tParsers "a.pdf").2 (by decide)
  have hfm : tParsers.filterMap (fun parser => parser "a.pdf") =
      [⟨1, 5⟩, ⟨2, 10⟩] := by decide
  rw [hfm] at hsplit
  rcases l₁ with _ | ⟨a, l₁⟩
  · simp only [List.nil_append, List.cons.injEq] at hsplit
    obtain ⟨hb, hl₂⟩ := hsplit
    have hmem : (⟨2, 10⟩ : ProbeResult) ∈ l₂ := by
      rw [← hl₂]
      simp
    have := hle _ hmem
    rw [← hb] at this
    exact absurd this (by decide)
  · simp only [List.cons_append, List.cons.injEq] at hsplit
    obtain ⟨-, hsplit⟩ := hsplit
    rcases l₁ with _ | ⟨b, l₁⟩
    · simp only [List.nil_append, List.cons.injEq] at hsplit
      obtain ⟨hb, -⟩ := hsplit
      rw [hbest, ← hb]
    · simp only [List.cons_append, List.cons.injEq] at hsplit
      obtain ⟨-, hsplit⟩ := hsplit
      simp at hsplit

/-- Every exception `_store` raises is an IO or database error, never a
`ParseError`. -/
theorem store_error_kind (env : Env) (faults : StoreFaults)
    (text doc thumbnail : String) (date : Option Int) (st : PState)
    (e : Exc) (st₂ : PState)
    (h : _store env faults text doc thumbnail date st = (Except.error e, st₂)) :
    ∃ m, e = Exc.ioError m := by
  unfold _store at h
  split at h
  · simp only [Prod.mk.injEq, Except.error.injEq] at h
    exact ⟨_, h.1.symm⟩
  · split at h
    · simp only [Prod.mk.injEq, Except.error.injEq] at h
      exact ⟨_, h.1.symm⟩
    · split at h
      · simp only [Prod.mk.injEq, Except.error.injEq] at h
        exact ⟨_, h.1.symm⟩
      · split at h
        · simp only [Prod.mk.injEq, Except.error.injEq] at h
          exact ⟨_, h.1.symm⟩
        · split at h
          · simp only [Prod.mk.injEq, Except.error.injEq] at h
            exact ⟨_, h.1.symm⟩
          · simp at h

/-- Claim C6 as stated is false on the code: in a pass whose only candidate
is a duplicate, the attempt returns False as a duplicate skip, and the file
is nevertheless appended to the ignore list, which changes from empty to
containing it. -/
theorem duplicate_ignored_counterexample :
    hasChecksum stDup.db (tEnv.hash [1, 2]) = true ∧
    (try_consume_file tEnv tParsers tSems noFaults "a.pdf" stDup).1 =
      Except.ok false ∧
    stDup.ignore = [] ∧
    (consume_new_files tEnv tParsers tSems noFaults stDup stDup.fs).2.ignore =
      ["a.pdf"] := by decide

/-- Claim C6 amended: in a pass that completes without a propagated
exception, a scanned candidate whose mtime is unchanged at its own iteration
is added to the in-memory ignore list exactly when its attempt returned
"not consumed" — for any reason: structural failure, extraction failure, or
duplicate skip alike (equivalently: exactly when its source file survived
the pass); only successfully consumed files are not added. -/
theorem ignore_records_unconsumed (env : Env)
    (parsers : List (String → Option ProbeResult)) (sems : Nat → String → ParserSem)
    (faults : StoreFaults) (st : PState) (fsAfterSleep : List (String × FileRec))
    (f : String) (fr : FileRec)
    (hnodup : (st.fs.map Prod.fst).Nodup)
    (hfile : lookupFile st.fs f = some fr)
    (hnig : f ∉ st.ignore)
    (hmt : getmtime fsAfterSleep f = some fr.mtime)
    (hok : (consume_new_files env parsers sems faults st fsAfterSleep).1 =
      Except.ok ()) :
    ((f ∈ (consume_new_files env parsers sems faults st fsAfterSleep).2.ignore) ↔
      ¬ lookupFile (consume_new_files env parsers sems faults st fsAfterSleep).2.fs f =
        none) := by
  have hmem : (f, fr) ∈ st.fs := lookup_mem st.fs f fr hfile
  have hfmem : (f, fr.mtime) ∈ st.fs.filterMap
      (fun e => if e.1 ∈ st.ignore then none else some (e.1, e.2.mtime)) :=
    scan_mem st.fs st.ignore f fr hmem hnig
  have hne : ¬ (st.fs.filterMap
      (fun e => if e.1 ∈ st.ignore then none else some (e.1, e.2.mtime))).isEmpty = true := by
    intro hemp
    rw [List.isEmpty_iff] at hemp
    rw [hemp] at hfmem
    simp at hfmem
  have hred : consume_new_files env parsers sems faults st fsAfterSleep =
      consumeLoop env parsers sems faults
        (sortByMtime (st.fs.filterMap
          (fun e => if e.1 ∈ st.ignore then none else some (e.1, e.2.mtime))))
        { st with fs := fsAfterSleep } := by
    unfold consume_new_files
    rw [if_neg hne]
  have hsmem : (f, fr.mtime) ∈ sortByMtime (st.fs.filterMap
      (fun e => if e.1 ∈ st.ignore then none else some (e.1, e.2.mtime))) :=
    (sortByMtime_perm _).mem_iff.mpr hfmem
  obtain ⟨pre, post, hsplit⟩ := List.append_of_mem hsmem
  have hnd : ((sortByMtime (st.fs.filterMap
      (fun e => if e.1 ∈ st.ignore then none else some (e.1, e.2.mtime)))).map
        Prod.fst).Nodup :=
    (((sortByMtime_perm _).map Prod.fst).nodup_iff).mpr
      (List.Nodup.sublist (scan_fst_sublist st.fs st.ignore) hnodup)
  rw [hsplit] at hnd
  obtain ⟨hpre, hpost⟩ := nodup_fst_split pre post f fr.mtime hnd
  rw [hred, hsplit] at hok ⊢
  exact loop_ok_ignored env parsers sems faults f fr.mtime pre post
    { st with fs := fsAfterSleep } hpre hpost hnig hmt hok

theorem ignore_records_unconsumed_witness :
    "a.pdf" ∈ (consume_new_files tEnv tParsers tSems noFaults stDup stDup.fs).2.ignore := by
  refine (ignore_records_unconsumed tEnv tParsers tSems noFaults stDup stDup.fs "a.pdf"
    ⟨[1, 2], 100⟩ (by decide) (by rfl) (by decide) (by rfl) (by rfl)).mpr ?_
  decide

/-- Claim C7: a candidate whose modification time observed after the settle
delay differs from the one observed at the initial scan is never consumed in
that pass: its directory entry is exactly what the post-sleep directory
holds, and its ignore-membership is unchanged. -/
theorem settle_delay_skips_modified (env : Env)
    (parsers : List (String → Option ProbeResult)) (sems : Nat → String → ParserSem)
    (faults : StoreFaults) (st : PState) (fsAfterSleep : List (String × FileRec))
    (f : String) (fr : FileRec)
    (hnodup : (st.fs.map Prod.fst).Nodup)
    (hfile : lookupFile st.fs f = some fr)
    (hnig : f ∉ st.ignore)
    (hch : ¬ getmtime fsAfterSleep f = some fr.mtime) :
    lookupFile (consume_new_files env parsers sems faults st fsAfterSleep).2.fs f =
      lookupFile fsAfterSleep f ∧
    ((f ∈ (consume_new_files env parsers sems faults st fsAfterSleep).2.ignore) ↔
      f ∈ st.ignore) := by
  have hmem : (f, fr) ∈ st.fs := lookup_mem st.fs f fr hfile
  have hfmem : (f, fr.mtime) ∈ st.fs.filterMap
      (fun e => if e.1 ∈ st.ignore then none else some (e.1, e.2.mtime)) :=
    scan_mem st.fs st.ignore f fr hmem hnig
  have hne : ¬ (st.fs.filterMap
      (fun e => if e.1 ∈ st.ignore then none else some (e.1, e.2.mtime))).isEmpty = true := by
    intro hemp
    rw [List.isEmpty_iff] at hemp
    rw [hemp] at hfmem
    simp at hfmem
  have hred : consume_new_files env parsers sems faults st fsAfterSleep =
      consumeLoop env parsers sems faults
        (sortByMtime (st.fs.filterMap
          (fun e => if e.1 ∈ st.ignore then none else some (e.1, e.2.mtime))))
        { st with fs := fsAfterSleep } := by
    unfold consume_new_files
    rw [if_neg hne]
  have hsmem : (f, fr.mtime) ∈ sortByMtime (st.fs.filterMap
      (fun e => if e.1 ∈ st.ignore then none else some (e.1, e.2.mtime))) :=
    (sortByMtime_perm _).mem_iff.mpr hfmem
  obtain ⟨pre, post, hsplit⟩ := List.append_of_mem hsmem
  have hnd : ((sortByMtime (st.fs.filterMap
      (fun e => if e.1 ∈ st.ignore then none else some (e.1, e.2.mtime)))).map
        Prod.fst).Nodup :=
    (((sortByMtime_perm _).map Prod.fst).nodup_iff).mpr
      (List.Nodup.sublist (scan_fst_sublist st.fs st.ignore) hnodup)
  rw [hsplit] at hnd
  obtain ⟨hpre, hpost⟩ := nodup_fst_split pre post f fr.mtime hnd
  rw [hred, hsplit]
  exact loop_reach env parsers sems faults f fr.mtime pre post
    { st with fs := fsAfterSleep } hpre hpost hch

/-- The post-sleep directory for the C7 witness: `a.pdf` was rewritten
during the settle delay, so its mtime moved from 100 to 200. -/
def tFsChanged : List (String × FileRec) := [("a.pdf", ⟨[1, 2, 3], 200⟩)]

theorem settle_delay_skips_modified_witness :
    lookupFile (consume_new_files tEnv tParsers tSems noFaults tSt tFsChanged).2.fs
      "a.pdf" = lookupFile tFsChanged "a.pdf" ∧
    (("a.pdf" ∈ (consume_new_files tEnv tParsers tSems noFaults tSt tFsChanged).2.ignore) ↔
      "a.pdf" ∈ tSt.ignore) :=
  settle_delay_skips_modified tEnv tParsers tSems noFaults tSt tFsChanged "a.pdf"
    ⟨[1, 2], 100⟩ (by decide) (by rfl) (by decide) (by decide)

/-- Claim C10: when the store step raises a non-`ParseError` exception (a
database failure creating the row or an IO failure writing the encrypted
content), the exception propagates uncaught out of `try_consume_file` and
out of the whole pass loop, whose result no longer depends on the remaining
files — they are not processed, and the directory is left as it was. -/
theorem store_error_aborts_pass (env : Env)
    (parsers : List (String → Option ProbeResult)) (sems : Nat → String → ParserSem)
    (faults : StoreFaults) (file : String) (st : PState) (fr : FileRec)
    (cls : Nat) (thumbnail : String) (date : Option Int) (text : String)
    (mt : Int) (rest : List (String × Int))
    (hre : env.titleRegexMatch file = true)
    (hfile : lookupFile st.fs file = some fr)
    (hdup : hasChecksum st.db (env.hash fr.bytes) = false)
    (hcls : _get_parser_class parsers file = some cls)
    (hext : extractionResult (sems cls file) = Except.ok (thumbnail, date, text))
    (hfault : faults.createFails = true ∨ faults.contentWriteFails = true)
    (hmt : getmtime st.fs file = some mt) :
    ∃ m st', try_consume_file env parsers sems faults file st =
        (Except.error (Exc.ioError m), st') ∧
      consumeLoop env parsers sems faults ((file, mt) :: rest) st =
        (Except.error (Exc.ioError m), st') ∧
      st'.fs = st.fs := by
  rcases hs : _store env faults text file thumbnail date
      (pushNotif (Notif.started file) (pushLog (LogEntry.consuming file) st)) with ⟨rs, st₂⟩
  have hiserr : isErr rs = true := by
    have h := (store_failures_surfaced env faults text file thumbnail date
      (pushNotif (Notif.started file) (pushLog (LogEntry.consuming file) st)) fr
      (by dsimp only [pushNotif, pushLog]; exact hfile)
      (by rcases hfault with hf | hf
          · exact Or.inl hf
          · exact Or.inr (Or.inl hf))).1
    rw [hs] at h
    exact h
  cases rs with
  | ok d => simp [isErr] at hiserr
  | error e =>
    obtain ⟨m, rfl⟩ := store_error_kind env faults text file thumbnail date
      (pushNotif (Notif.started file) (pushLog (LogEntry.consuming file) st)) e st₂ hs
    have htry : try_consume_file env parsers sems faults file st =
        (Except.error (Exc.ioError m), st₂) := by
      unfold try_consume_file
      rw [if_neg (by rw [hre]; simp)]
      simp only [_is_duplicate, hfile, hdup, hcls, hext]
      rw [hs]
    have hfs2 : st₂.fs = st.fs := by
      have hsf := store_frame env faults text file thumbnail date
        (pushNotif (Notif.started file) (pushLog (LogEntry.consuming file) st))
      rw [hs] at hsf
      exact hsf.1
    refine ⟨m, st₂, htry, ?_, hfs2⟩
    exact consumeLoop_cons_error env parsers sems faults file mt rest st
      (Exc.ioError m) st₂ hmt htry

theorem store_error_aborts_pass_witness :
    (consumeLoop tEnv tParsers tSems faultsCreate
      [("a.pdf", 100), ("b.pdf", 5)] tSt).2.fs = tSt.fs ∧
    isErr (consumeLoop tEnv tParsers tSems faultsCreate
      [("a.pdf", 100), ("b.pdf", 5)] tSt).1 = true := by
  obtain ⟨m, st', htry, hloop, hfs⟩ := store_error_aborts_pass tEnv tParsers tSems
    faultsCreate "a.pdf" tSt ⟨[1, 2], 100⟩ 2 "thumb.png" none "text" 100
    [("b.pdf", 5)] (by rfl) (by rfl) (by rfl) (by rfl) (by rfl) (Or.inl rfl) (by rfl)
  rw [hloop]
  exact ⟨hfs, rfl⟩

end Paperless
